import Mathlib

/-!
Formal model of the rate-estimation core in `src/network/hyperprior.py`
(high-fidelity generative compression).  Tensors are embedded as functions
from index types to the reals; the elementwise tensor operations of the
source become pointwise real operations.  Convolutional analysis/synthesis
networks are opaque function parameters: every claim below concerns the
orchestration, quantization, density and entropy-estimation code, not the
convolution kernels.
-/

namespace HiFiC

noncomputable section

/-! Constants from the top of `hyperprior.py`. -/

def MIN_SCALE : ℝ := 11 / 100

def LOG_SCALES_MIN : ℝ := -3

def MIN_LIKELIHOOD : ℝ := 1 / 1000000000

def MAX_LIKELIHOOD : ℝ := 1000

/-- The `EPS` guard used inside `CodingModel._estimate_entropy`. -/
def EPS : ℝ := 1 / 1000000000

/-- Modelled from the spec: `maths.LowerBoundToward` (module `src/helpers/maths`,
not part of the provided sources).  Per spec section 4.1 its forward value is the
elementwise lower bound `max(x, bound)`; only the gradient rule differs from a
plain clamp, which value-level reasoning does not see. -/
def lower_bound_toward (x bound : ℝ) : ℝ := max x bound

/-- Forward semantics of `torch.sigmoid`. -/
def sigmoid (x : ℝ) : ℝ := 1 / (1 + Real.exp (-x))

/-- Forward semantics of `torch.nn.functional.softplus`. -/
def softplusR (x : ℝ) : ℝ := Real.log (1 + Real.exp x)

/-! ## CodingModel: quantizer and entropy estimator -/

namespace CodingModel

/-- The `mode == 'quantize'` branch of `CodingModel._quantize`, elementwise:
subtract the optional mean, take `floor(x + 0.5)`, re-add the mean. -/
def quantize_mode_quantize (x : ℝ) (means : Option ℝ) : ℝ :=
  match means with
  | some m => ((Int.floor ((x - m) + 1 / 2) : ℤ) : ℝ) + m
  | none => ((Int.floor (x + 1 / 2) : ℤ) : ℝ)

/-- The `mode == 'noise'` branch of `CodingModel._quantize`, elementwise: the
uniform noise draw is an explicit argument (the `means` argument of the source
is ignored by this branch). -/
def quantize_mode_noise (x noise : ℝ) : ℝ := x + noise

/-- The rounding rule in the spec's words: nearest integer with ties broken
away from zero (written here only to compare against the source's rule). -/
def round_ties_away (x : ℝ) : ℝ :=
  if 0 ≤ x then ((Int.floor (x + 1 / 2) : ℤ) : ℝ)
  else ((Int.ceil (x - 1 / 2) : ℤ) : ℝ)

/-- Forward value of `CodingModel.quantize_latents_st`, elementwise, keeping
the source's sequence of assignments (the `detach` only affects gradients). -/
def quantize_latents_st (inputs : ℝ) (means : Option ℝ) : ℝ :=
  match means with
  | some m =>
      let values := inputs - m
      let delta := ((Int.floor (values + 1 / 2) : ℤ) : ℝ) - values
      (values + delta) + m
  | none =>
      let values := inputs
      let delta := ((Int.floor (values + 1 / 2) : ℤ) : ℝ) - values
      values + delta

/-- `CodingModel._estimate_entropy`: a likelihood tensor of batch size `B`
over per-sample index type `ι` is mapped to `(n_bits, bpp)`.  The source's
`assert len(spatial_shape) == 2` is enforced by the pair type. -/
def estimate_entropy (B : ℕ) {ι : Type} [Fintype ι]
    (likelihood : Fin B → ι → ℝ) (spatial_shape : ℕ × ℕ) : ℝ × ℝ :=
  let quotient : ℝ := -Real.log 2
  let n_pixels : ℝ := ((spatial_shape.1 * spatial_shape.2 : ℕ) : ℝ)
  let n_bits : ℝ :=
    (∑ b : Fin B, ∑ i : ι, Real.log (likelihood b i + EPS)) / ((B : ℝ) * quotient)
  (n_bits, n_bits / n_pixels)

/-- `CodingModel._estimate_entropy_log`: same as `estimate_entropy` but the
log-likelihoods are supplied directly (no `+ EPS` guard, no `log`). -/
def estimate_entropy_log (B : ℕ) {ι : Type} [Fintype ι]
    (log_likelihood : Fin B → ι → ℝ) (spatial_shape : ℕ × ℕ) : ℝ × ℝ :=
  let quotient : ℝ := -Real.log 2
  let n_pixels : ℝ := ((spatial_shape.1 * spatial_shape.2 : ℕ) : ℝ)
  let n_bits : ℝ :=
    (∑ b : Fin B, ∑ i : ι, log_likelihood b i) / ((B : ℝ) * quotient)
  (n_bits, n_bits / n_pixels)

/-- `CodingModel.latent_likelihood`, elementwise.  `Φ` is the configured
`self.standardized_CDF` (an external collaborator from `src/helpers/maths`,
kept abstract). -/
def latent_likelihood (Φ : ℝ → ℝ) (min_likelihood : ℝ) (x mean scale : ℝ) : ℝ :=
  let xc := |x - mean|
  let cdf_upper := Φ ((1 / 2 - xc) / scale)
  let cdf_lower := Φ (-(1 / 2 + xc) / scale)
  lower_bound_toward (cdf_upper - cdf_lower) min_likelihood

end CodingModel

/-! ## HyperpriorDensity: the factorized hyperlatent density

A `(C, 1, *)` tensor is embedded as a function `channel → filter-row → flat
spatial index → ℝ`.  Each stage `k` holds the parameters `H_k` (shape
`(C, filters[k+1], filters[k])`), `a_k` and `b_k` (shape `(C, filters[k+1], 1)`,
broadcast over the spatial axis); matrices are functions with the active
dimensions passed explicitly, mirroring the dynamically shaped source. -/

structure DensityStage where
  outDim : ℕ
  H : ℕ → ℕ → ℕ → ℝ
  a : ℕ → ℕ → ℝ
  b : ℕ → ℕ → ℝ

namespace HyperpriorDensity

/-- One iteration of the loop body of `HyperpriorDensity.cdf_logits`, keeping
the source's three sequential assignments:
`logits = bmm(softplus(H_k), logits)`, `logits = logits + b_k`,
`logits = logits + tanh(a_k) * tanh(logits)` — the final `tanh` reads the
variable after the first two assignments. -/
def cdf_logits_stage (inDim : ℕ) (s : DensityStage) (v : ℕ → ℕ → ℕ → ℝ) :
    ℕ → ℕ → ℕ → ℝ :=
  fun c i l =>
    let logits1 := ∑ j in Finset.range inDim, softplusR (s.H c i j) * v c j l
    let logits2 := logits1 + s.b c i
    logits2 + Real.tanh (s.a c i) * Real.tanh logits2

/-- `HyperpriorDensity.cdf_logits`: fold the stage bodies over the stage list,
threading the active row dimension. -/
def cdf_logits (stages : List DensityStage) (inDim : ℕ) (x : ℕ → ℕ → ℕ → ℝ) :
    ℕ → ℕ → ℕ → ℝ :=
  match stages with
  | [] => x
  | s :: rest => cdf_logits rest s.outDim (cdf_logits_stage inDim s x)

/-- The stage update as the claim reads it: every occurrence of `logits` on the
right-hand side — including the one inside the final `tanh` — denotes the
previous stage's value. -/
def cdf_logits_stage_claimed (inDim : ℕ) (s : DensityStage) (v : ℕ → ℕ → ℕ → ℝ) :
    ℕ → ℕ → ℕ → ℝ :=
  fun c i l =>
    (∑ j in Finset.range inDim, softplusR (s.H c i j) * v c j l) + s.b c i +
      Real.tanh (s.a c i) * Real.tanh (v c i l)

/-- The claim's reading of `cdf_logits`, folding `cdf_logits_stage_claimed`. -/
def cdf_logits_claimed (stages : List DensityStage) (inDim : ℕ)
    (x : ℕ → ℕ → ℕ → ℝ) : ℕ → ℕ → ℕ → ℝ :=
  match stages with
  | [] => x
  | s :: rest => cdf_logits_claimed rest s.outDim (cdf_logits_stage_claimed inDim s x)

/-- The stage update written as a single expression: the final `tanh` is
applied to the current-stage intermediate value `t = bmm(softplus(H_k), prev) + b_k`. -/
def cdf_logits_stage_amended (inDim : ℕ) (s : DensityStage) (v : ℕ → ℕ → ℕ → ℝ) :
    ℕ → ℕ → ℕ → ℝ :=
  fun c i l =>
    let t := (∑ j in Finset.range inDim, softplusR (s.H c i j) * v c j l) + s.b c i
    t + Real.tanh (s.a c i) * Real.tanh t

/-- Fold of `cdf_logits_stage_amended`. -/
def cdf_logits_amended (stages : List DensityStage) (inDim : ℕ)
    (x : ℕ → ℕ → ℕ → ℝ) : ℕ → ℕ → ℕ → ℝ :=
  match stages with
  | [] => x
  | s :: rest => cdf_logits_amended rest s.outDim (cdf_logits_stage_amended inDim s x)

/-- The numerically stabilized sigmoid combination of
`HyperpriorDensity.likelihood`, elementwise: `torch.sign` agrees with
`Real.sign` (both return `0` at `0`). -/
def stabilized_diff (cdf_upper cdf_lower : ℝ) : ℝ :=
  let sign := -Real.sign (cdf_upper + cdf_lower)
  |sigmoid (sign * cdf_upper) - sigmoid (sign * cdf_lower)|

/-- `HyperpriorDensity.likelihood`, elementwise over the `(C, 1, *)` layout
(the source's permute/reshape from `(N, C, H, W)` is index bookkeeping):
evaluate the CDF logits at `x ± 0.5`, combine with the sign trick, floor the
result at `min_likelihood`. -/
def likelihood (min_likelihood : ℝ) (stages : List DensityStage)
    (x : ℕ → ℕ → ℕ → ℝ) : ℕ → ℕ → ℕ → ℝ :=
  fun c i l =>
    let cdf_upper := cdf_logits stages 1 (fun c j l => x c j l + 1 / 2) c i l
    let cdf_lower := cdf_logits stages 1 (fun c j l => x c j l - 1 / 2) c i l
    lower_bound_toward (stabilized_diff cdf_upper cdf_lower) min_likelihood

end HyperpriorDensity

/-! ## DLMM: discretized logistic mixture likelihood -/

/-- `log_softmax` over a mixture axis of size `K`. -/
def log_softmax (K : ℕ) (logits : Fin K → ℝ) (k : Fin K) : ℝ :=
  logits k - Real.log (∑ j : Fin K, Real.exp (logits j))

/-- `torch.logsumexp` over a mixture axis of size `K`. -/
def logsumexp (K : ℕ) (v : Fin K → ℝ) : ℝ :=
  Real.log (∑ k : Fin K, Real.exp (v k))

namespace HyperpriorDLMM

/-- One mixture component's pmf inside
`HyperpriorDLMM.latent_log_likelihood_DLMM`, elementwise:
`lower_bound_toward(Φ(inv_std*(0.5 - |x-mean|)) - Φ(inv_std*(-0.5 - |x-mean|)), MIN_LIKELIHOOD)`. -/
def pmf_mixture_component (Φ : ℝ → ℝ) (x mean log_scale : ℝ) : ℝ :=
  let x_centered := |x - mean|
  let inv_std := Real.exp (-log_scale)
  lower_bound_toward
    (Φ (inv_std * (1 / 2 - x_centered)) - Φ (inv_std * (-(1 / 2) - x_centered)))
    MIN_LIKELIHOOD

/-- The mixture combination of `HyperpriorDLMM.latent_log_likelihood_DLMM` for
one latent element with `K` mixture components:
`logsumexp(log_softmax(logit_pis) + log(pmf), over K)`. -/
def latent_log_likelihood_DLMM_elt (Φ : ℝ → ℝ) (K : ℕ) (x : ℝ)
    (logit_pis means log_scales : Fin K → ℝ) : ℝ :=
  logsumexp K fun k =>
    log_softmax K logit_pis k +
      Real.log (pmf_mixture_component Φ x (means k) (log_scales k))

end HyperpriorDLMM

/-! ## Orchestrators: `Hyperprior.forward` and `HyperpriorDLMM.forward`

A batched tensor is `Fin B → ι → ℝ` (`ι` covers the channel and spatial axes
of one sample).  The convolutional collaborators (`analysis_net`,
`synthesis_mu`, `synthesis_std`, `synthesis_DLMM_params`) and the configured
`HyperpriorDensity.forward` likelihood module are opaque function-valued
fields; `training` is the `nn.Module` mode flag and the uniform noise draws of
the `noise` quantization mode are explicit arguments. -/

def Tensor (B : ℕ) (ι : Type) : Type := Fin B → ι → ℝ

/-- The `HyperInfo` namedtuple.  The bitstring fields keep their `Option`
("may be unset") nature. -/
structure HyperInfo (T : Type) where
  decoded : T
  latent_nbpp : ℝ
  hyperlatent_nbpp : ℝ
  total_nbpp : ℝ
  latent_qbpp : ℝ
  hyperlatent_qbpp : ℝ
  total_qbpp : ℝ
  bitstring : Option (List Bool)
  side_bitstring : Option (List Bool)

/-- State of a `Hyperprior` module (Gaussian/logistic variant). -/
structure HyperpriorModel (B : ℕ) (ι κ : Type) where
  analysis_net : Tensor B ι → Tensor B κ
  synthesis_mu : Tensor B κ → Tensor B ι
  synthesis_std : Tensor B κ → Tensor B ι
  hyperlatent_likelihood : Tensor B κ → Tensor B κ
  standardized_CDF : ℝ → ℝ
  scale_lower_bound : ℝ
  min_likelihood : ℝ
  training : Bool

namespace Hyperprior

variable {B : ℕ} {ι κ : Type}

/-- `hyperlatents = self.analysis_net(latents)`. -/
def hyperlatents (M : HyperpriorModel B ι κ) (latents : Tensor B ι) : Tensor B κ :=
  M.analysis_net latents

/-- `noisy_hyperlatents = self._quantize(hyperlatents, mode='noise')`. -/
def noisy_hyperlatents (M : HyperpriorModel B ι κ) (latents : Tensor B ι)
    (noise_h : Tensor B κ) : Tensor B κ :=
  fun b i => CodingModel.quantize_mode_noise (hyperlatents M latents b i) (noise_h b i)

/-- `quantized_hyperlatents = self._quantize(hyperlatents, mode='quantize')`. -/
def quantized_hyperlatents (M : HyperpriorModel B ι κ) (latents : Tensor B ι) :
    Tensor B κ :=
  fun b i => CodingModel.quantize_mode_quantize (hyperlatents M latents b i) none

/-- The training/inference select of the hyperlatents routed to synthesis. -/
def hyperlatents_decoded (M : HyperpriorModel B ι κ) (latents : Tensor B ι)
    (noise_h : Tensor B κ) : Tensor B κ :=
  if M.training then noisy_hyperlatents M latents noise_h
  else quantized_hyperlatents M latents

/-- `latent_means = self.synthesis_mu(hyperlatents_decoded)`. -/
def latent_means (M : HyperpriorModel B ι κ) (latents : Tensor B ι)
    (noise_h : Tensor B κ) : Tensor B ι :=
  M.synthesis_mu (hyperlatents_decoded M latents noise_h)

/-- `latent_scales = lower_bound_toward(self.synthesis_std(...), scale_lower_bound)`. -/
def latent_scales (M : HyperpriorModel B ι κ) (latents : Tensor B ι)
    (noise_h : Tensor B κ) : Tensor B ι :=
  fun b i =>
    lower_bound_toward (M.synthesis_std (hyperlatents_decoded M latents noise_h) b i)
      M.scale_lower_bound

/-- `Hyperprior.forward`, following the source line by line. -/
def forward [Fintype ι] [Fintype κ] (M : HyperpriorModel B ι κ)
    (latents : Tensor B ι) (spatial_shape : ℕ × ℕ)
    (noise_h : Tensor B κ) (noise_l : Tensor B ι) : HyperInfo (Tensor B ι) :=
  let noisy_hyperlatent_likelihood :=
    M.hyperlatent_likelihood (noisy_hyperlatents M latents noise_h)
  let nh := CodingModel.estimate_entropy B noisy_hyperlatent_likelihood spatial_shape
  let quantized_hyperlatent_likelihood :=
    M.hyperlatent_likelihood (quantized_hyperlatents M latents)
  let qh := CodingModel.estimate_entropy B quantized_hyperlatent_likelihood spatial_shape
  let means := latent_means M latents noise_h
  let scales := latent_scales M latents noise_h
  let noisy_latents : Tensor B ι :=
    fun b i => CodingModel.quantize_mode_noise (latents b i) (noise_l b i)
  let noisy_latent_likelihood : Tensor B ι :=
    fun b i =>
      CodingModel.latent_likelihood M.standardized_CDF M.min_likelihood
        (noisy_latents b i) (means b i) (scales b i)
  let nl := CodingModel.estimate_entropy B noisy_latent_likelihood spatial_shape
  let quantized_latents : Tensor B ι :=
    fun b i => CodingModel.quantize_mode_quantize (latents b i) (some (means b i))
  let quantized_latent_likelihood : Tensor B ι :=
    fun b i =>
      CodingModel.latent_likelihood M.standardized_CDF M.min_likelihood
        (quantized_latents b i) (means b i) (scales b i)
  let ql := CodingModel.estimate_entropy B quantized_latent_likelihood spatial_shape
  let latents_decoded : Tensor B ι :=
    fun b i => CodingModel.quantize_latents_st (latents b i) (some (means b i))
  { decoded := latents_decoded
    latent_nbpp := nl.2
    hyperlatent_nbpp := nh.2
    total_nbpp := nl.2 + nh.2
    latent_qbpp := ql.2
    hyperlatent_qbpp := qh.2
    total_qbpp := ql.2 + qh.2
    bitstring := none
    side_bitstring := none }

end Hyperprior

/-- State of a `HyperpriorDLMM` module.  The synthesis output arrives in the
`(N, 3, C, K, H, W)` layout produced by the reshape in
`unpack_likelihood_params`; the flat-channel arithmetic of the source is index
bookkeeping. -/
structure HyperpriorDLMMModel (B : ℕ) (ι κ : Type) (K : ℕ) where
  analysis_net : Tensor B ι → Tensor B κ
  synthesis_DLMM_params : Tensor B κ → (Fin B → Fin 3 → ι → Fin K → ℝ)
  hyperlatent_likelihood : Tensor B κ → Tensor B κ
  standardized_CDF : ℝ → ℝ
  training : Bool

/-- `unpack_likelihood_params`: slice the three parameter groups and
lower-bound the log-scales at `LOG_SCALES_MIN`. -/
def unpack_likelihood_params {B : ℕ} {ι : Type} {K : ℕ}
    (conv_out : Fin B → Fin 3 → ι → Fin K → ℝ) :
    (Fin B → ι → Fin K → ℝ) × (Fin B → ι → Fin K → ℝ) × (Fin B → ι → Fin K → ℝ) :=
  (fun b i k => conv_out b 0 i k,
   fun b i k => conv_out b 1 i k,
   fun b i k => lower_bound_toward (conv_out b 2 i k) LOG_SCALES_MIN)

namespace HyperpriorDLMM

variable {B : ℕ} {ι κ : Type} {K : ℕ}

/-- `hyperlatents = self.analysis_net(latents)`. -/
def hyperlatents (M : HyperpriorDLMMModel B ι κ K) (latents : Tensor B ι) :
    Tensor B κ :=
  M.analysis_net latents

/-- `noisy_hyperlatents = self._quantize(hyperlatents, mode='noise')`. -/
def noisy_hyperlatents (M : HyperpriorDLMMModel B ι κ K) (latents : Tensor B ι)
    (noise_h : Tensor B κ) : Tensor B κ :=
  fun b i => CodingModel.quantize_mode_noise (hyperlatents M latents b i) (noise_h b i)

/-- `quantized_hyperlatents = self._quantize(hyperlatents, mode='quantize')`. -/
def quantized_hyperlatents (M : HyperpriorDLMMModel B ι κ K) (latents : Tensor B ι) :
    Tensor B κ :=
  fun b i => CodingModel.quantize_mode_quantize (hyperlatents M latents b i) none

/-- The training/inference select of the hyperlatents routed to synthesis. -/
def hyperlatents_decoded (M : HyperpriorDLMMModel B ι κ K) (latents : Tensor B ι)
    (noise_h : Tensor B κ) : Tensor B κ :=
  if M.training then noisy_hyperlatents M latents noise_h
  else quantized_hyperlatents M latents

/-- `HyperpriorDLMM.latent_log_likelihood_DLMM` as a tensor map: unpack the
parameters, then apply the elementwise mixture log-likelihood. -/
def latent_log_likelihood_DLMM (Φ : ℝ → ℝ) (x : Tensor B ι)
    (DLMM_params : Fin B → Fin 3 → ι → Fin K → ℝ) : Tensor B ι :=
  let unpacked := unpack_likelihood_params DLMM_params
  fun b i =>
    latent_log_likelihood_DLMM_elt Φ K (x b i)
      (unpacked.1 b i) (unpacked.2.1 b i) (unpacked.2.2 b i)

/-- `HyperpriorDLMM.forward`, following the source line by line. -/
def forward [Fintype ι] [Fintype κ] (M : HyperpriorDLMMModel B ι κ K)
    (latents : Tensor B ι) (spatial_shape : ℕ × ℕ)
    (noise_h : Tensor B κ) (noise_l : Tensor B ι) : HyperInfo (Tensor B ι) :=
  let noisy_hyperlatent_likelihood :=
    M.hyperlatent_likelihood (noisy_hyperlatents M latents noise_h)
  let nh := CodingModel.estimate_entropy B noisy_hyperlatent_likelihood spatial_shape
  let quantized_hyperlatent_likelihood :=
    M.hyperlatent_likelihood (quantized_hyperlatents M latents)
  let qh := CodingModel.estimate_entropy B quantized_hyperlatent_likelihood spatial_shape
  let latent_DLMM_params :=
    M.synthesis_DLMM_params (hyperlatents_decoded M latents noise_h)
  let noisy_latents : Tensor B ι :=
    fun b i => CodingModel.quantize_mode_noise (latents b i) (noise_l b i)
  let noisy_latent_log_likelihood :=
    latent_log_likelihood_DLMM M.standardized_CDF noisy_latents latent_DLMM_params
  let nl := CodingModel.estimate_entropy_log B noisy_latent_log_likelihood spatial_shape
  let quantized_latents : Tensor B ι :=
    fun b i => CodingModel.quantize_mode_quantize (latents b i) none
  let quantized_latent_log_likelihood :=
    latent_log_likelihood_DLMM M.standardized_CDF quantized_latents latent_DLMM_params
  let ql := CodingModel.estimate_entropy_log B quantized_latent_log_likelihood spatial_shape
  let latents_decoded : Tensor B ι :=
    if M.training then
      fun b i => CodingModel.quantize_latents_st (latents b i) none
    else quantized_latents
  { decoded := latents_decoded
    latent_nbpp := nl.2
    hyperlatent_nbpp := nh.2
    total_nbpp := nl.2 + nh.2
    latent_qbpp := ql.2
    hyperlatent_qbpp := qh.2
    total_qbpp := ql.2 + qh.2
    bitstring := none
    side_bitstring := none }

end HyperpriorDLMM

/-! ## Constructor checks (`Hyperprior.__init__`, `HyperpriorDLMM.__init__`) -/

namespace Hyperprior

/-- The fallible part of `Hyperprior.__init__`: the `likelihood_type` dispatch
raises `ValueError` on an unrecognized string. -/
def init (bottleneck_capacity : ℕ) (likelihood_type : String) : Except String Unit :=
  if likelihood_type = "gaussian" then Except.ok ()
  else if likelihood_type = "logistic" then Except.ok ()
  else Except.error ("Unknown likelihood model: " ++ likelihood_type)

end Hyperprior

namespace HyperpriorDLMM

/-- The fallible part of `HyperpriorDLMM.__init__`: the capacity assertion
fires before the `likelihood_type` dispatch. -/
def init (bottleneck_capacity : ℕ) (likelihood_type : String) : Except String Unit :=
  if bottleneck_capacity ≤ 128 then
    if likelihood_type = "gaussian" then Except.ok ()
    else if likelihood_type = "logistic" then Except.ok ()
    else Except.error ("Unknown likelihood model: " ++ likelihood_type)
  else Except.error ("Will probably run out of memory!")

end HyperpriorDLMM

/-! ## Autograd semantics

`torch.Tensor.detach` is invisible to value-level reasoning, so the claims
about it are settled over a forward-mode autodiff scalar: a value paired with
its derivative along one input direction.  `detach` zeroes the derivative and
keeps the value; `floor` has zero derivative (as in torch); the remaining
operations carry the usual chain rule. -/

structure D where
  val : ℝ
  grad : ℝ

namespace D

def add (x y : D) : D := ⟨x.val + y.val, x.grad + y.grad⟩

def sub (x y : D) : D := ⟨x.val - y.val, x.grad - y.grad⟩

def mul (x y : D) : D := ⟨x.val * y.val, x.grad * y.val + x.val * y.grad⟩

def const (c : ℝ) : D := ⟨c, 0⟩

def detach (x : D) : D := ⟨x.val, 0⟩

def floor (x : D) : D := ⟨((Int.floor x.val : ℤ) : ℝ), 0⟩

def tanh (x : D) : D := ⟨Real.tanh x.val, x.grad * (1 - Real.tanh x.val ^ 2)⟩

def softplus (x : D) : D := ⟨softplusR x.val, x.grad * sigmoid x.val⟩

def sum (n : ℕ) (f : ℕ → D) : D :=
  ⟨∑ j in Finset.range n, (f j).val, ∑ j in Finset.range n, (f j).grad⟩

end D

/-- `CodingModel.quantize_latents_st` (no means) on autodiff scalars:
`delta = (floor(values + 0.5) - values).detach(); values = values + delta`. -/
def quantize_latents_st_D (inputs : D) : D :=
  let delta := D.detach (D.sub (D.floor (D.add inputs (D.const (1 / 2)))) inputs)
  D.add inputs delta

/-- The `mode == 'quantize'` branch of `CodingModel._quantize` (no means) on
autodiff scalars: `floor(x + 0.5)` applied directly. -/
def quantize_hard_D (x : D) : D :=
  D.floor (D.add x (D.const (1 / 2)))

/-- Density stage parameters as autodiff scalars (the trainable state of
`HyperpriorDensity`). -/
structure DensityStageD where
  outDim : ℕ
  H : ℕ → ℕ → ℕ → D
  a : ℕ → ℕ → D
  b : ℕ → ℕ → D

namespace DensityStageD

/-- The `H_k, a_k, b_k = H_k.detach(), a_k.detach(), b_k.detach()` line of
`cdf_logits`, applied to one stage's parameters. -/
def detach (s : DensityStageD) : DensityStageD :=
  ⟨s.outDim, fun c i j => D.detach (s.H c i j), fun c i => D.detach (s.a c i),
    fun c i => D.detach (s.b c i)⟩

/-- Forget the derivative components of a stage's parameters. -/
def val (s : DensityStageD) : DensityStage :=
  ⟨s.outDim, fun c i j => (s.H c i j).val, fun c i => (s.a c i).val,
    fun c i => (s.b c i).val⟩

end DensityStageD

namespace HyperpriorDensity

/-- The loop body of `cdf_logits` on autodiff scalars. -/
def cdf_logits_stage_D (inDim : ℕ) (s : DensityStageD) (v : ℕ → ℕ → ℕ → D) :
    ℕ → ℕ → ℕ → D :=
  fun c i l =>
    let logits1 := D.sum inDim fun j => D.mul (D.softplus (s.H c i j)) (v c j l)
    let logits2 := D.add logits1 (s.b c i)
    D.add logits2 (D.mul (D.tanh (s.a c i)) (D.tanh logits2))

/-- `HyperpriorDensity.cdf_logits` on autodiff scalars, with the
`update_parameters` flag: when it is `false`, each stage's parameters are
detached before use, exactly as in the source. -/
def cdf_logits_D (stages : List DensityStageD) (update_parameters : Bool)
    (inDim : ℕ) (x : ℕ → ℕ → ℕ → D) : ℕ → ℕ → ℕ → D :=
  match stages with
  | [] => x
  | s :: rest =>
      let s2 := if update_parameters then s else s.detach
      cdf_logits_D rest update_parameters s2.outDim (cdf_logits_stage_D inDim s2 x)

end HyperpriorDensity

/-- A concrete one-stage density (dimensions 1 → 1) with `H = 0`, `a = 1`,
`b = 1`, used to separate the source's stage update from the claimed one. -/
def claim1Stage : DensityStage :=
  ⟨1, fun _ _ _ => 0, fun _ _ => 1, fun _ _ => 1⟩

/-- A concrete one-stage density (dimensions 1 → 1) with
`H = log(exp 2 - 1)` (so `softplus(H) = 2`), `a = b = 0`: its CDF logits at
the inputs `±0.5` are exactly `1` and `-1`. -/
def claim3Stage : DensityStage :=
  ⟨1, fun _ _ _ => Real.log (Real.exp 2 - 1), fun _ _ => 0, fun _ _ => 0⟩

/-! ## Theorems -/

/-! Helper facts about the sigmoid. -/

lemma sigmoid_pos (x : ℝ) : 0 < sigmoid x := by
  unfold sigmoid
  positivity

lemma sigmoid_neg_arg (x : ℝ) : sigmoid (-x) = 1 - sigmoid x := by
  unfold sigmoid
  rw [neg_neg]
  have h1 : (0 : ℝ) < 1 + Real.exp (-x) := by positivity
  have h2 : (0 : ℝ) < 1 + Real.exp x := by positivity
  have hx : Real.exp x * Real.exp (-x) = 1 := by
    rw [← Real.exp_add]
    simp
  field_simp
  nlinarith [hx]

lemma sigmoid_lt_sigmoid {x y : ℝ} (h : x < y) : sigmoid x < sigmoid y := by
  unfold sigmoid
  have h1 : Real.exp (-y) < Real.exp (-x) := Real.exp_lt_exp.2 (by linarith)
  have h2 : (0 : ℝ) < 1 + Real.exp (-y) := by positivity
  exact one_div_lt_one_div_of_lt h2 (by linarith)

lemma sigmoid_le_sigmoid {x y : ℝ} (h : x ≤ y) : sigmoid x ≤ sigmoid y := by
  rcases eq_or_lt_of_le h with rfl | h
  · exact le_refl _
  · exact (sigmoid_lt_sigmoid h).le

lemma tanh_one_pos : 0 < Real.tanh 1 := by
  rw [Real.tanh_eq_sinh_div_cosh]
  exact div_pos (Real.sinh_pos_iff.2 one_pos) (Real.cosh_pos 1)

lemma softplusR_log_expm1_two : softplusR (Real.log (Real.exp 2 - 1)) = 2 := by
  unfold softplusR
  have hpos : (0 : ℝ) < Real.exp 2 - 1 := by
    have := Real.add_one_le_exp (2 : ℝ)
    linarith
  rw [Real.exp_log hpos,
    show (1 : ℝ) + (Real.exp 2 - 1) = Real.exp 2 by ring, Real.log_exp]

/-- C1, counterexample: with a single stage (`H = 0`, `a = 1`, `b = 1`) and
the zero input, the source computes `1 + tanh(1)·tanh(1)` (the final `tanh` is
applied to the already-updated logits) whereas the claimed formula — with
every right-hand-side `logits` the previous stage's value — gives `1`. -/
theorem claim1_counterexample :
    HyperpriorDensity.cdf_logits [claim1Stage] 1 (fun _ _ _ => (0 : ℝ)) 0 0 0 ≠
      HyperpriorDensity.cdf_logits_claimed [claim1Stage] 1 (fun _ _ _ => (0 : ℝ)) 0 0 0 := by
  have hcode : HyperpriorDensity.cdf_logits [claim1Stage] 1
      (fun _ _ _ => (0 : ℝ)) 0 0 0 = 1 + Real.tanh 1 * Real.tanh 1 := by
    show HyperpriorDensity.cdf_logits_stage 1 claim1Stage (fun _ _ _ => (0 : ℝ)) 0 0 0 = _
    unfold HyperpriorDensity.cdf_logits_stage claim1Stage
    simp
  have hclaim : HyperpriorDensity.cdf_logits_claimed [claim1Stage] 1
      (fun _ _ _ => (0 : ℝ)) 0 0 0 = 1 := by
    show HyperpriorDensity.cdf_logits_stage_claimed 1 claim1Stage (fun _ _ _ => (0 : ℝ)) 0 0 0 = _
    unfold HyperpriorDensity.cdf_logits_stage_claimed claim1Stage
    simp
  rw [hcode, hclaim]
  have := tanh_one_pos
  nlinarith

/-- C1, amended: `cdf_logits` initializes `logits = x` and for each stage
`k = 0..K` updates `logits` to `t + tanh(a_k) * tanh(t)` where
`t = batched_matmul(softplus(H_k), logits_prev) + b_k`; the final `tanh`
reads the current-stage intermediate value, not the previous stage's value. -/
theorem claim1_amended_tanh_after_update (stages : List DensityStage) (inDim : ℕ)
    (x : ℕ → ℕ → ℕ → ℝ) :
    HyperpriorDensity.cdf_logits stages inDim x =
      HyperpriorDensity.cdf_logits_amended stages inDim x := by
  induction stages generalizing inDim x with
  | nil => rfl
  | cons s rest ih =>
      show HyperpriorDensity.cdf_logits rest s.outDim _ =
        HyperpriorDensity.cdf_logits_amended rest s.outDim _
      rw [ih]
      rfl

/-- C3, counterexample: the stage `claim3Stage` yields the CDF-logit pair
`(1, -1)` at the inputs `±0.5`; there `sign(1 + (-1)) = 0`, so the stabilized
combination collapses to `|sigmoid 0 - sigmoid 0| = 0` while the naive
difference `sigmoid 1 - sigmoid (-1)` is positive. -/
theorem claim3_counterexample :
    HyperpriorDensity.cdf_logits [claim3Stage] 1 (fun _ _ _ => (1 : ℝ) / 2) 0 0 0 = 1 ∧
    HyperpriorDensity.cdf_logits [claim3Stage] 1 (fun _ _ _ => -(1 : ℝ) / 2) 0 0 0 = -1 ∧
    HyperpriorDensity.stabilized_diff 1 (-1) ≠ sigmoid 1 - sigmoid (-1) := by
  refine ⟨?_, ?_, ?_⟩
  · show HyperpriorDensity.cdf_logits_stage 1 claim3Stage (fun _ _ _ => (1 : ℝ) / 2) 0 0 0 = _
    unfold HyperpriorDensity.cdf_logits_stage claim3Stage
    simp [softplusR_log_expm1_two]
  · show HyperpriorDensity.cdf_logits_stage 1 claim3Stage (fun _ _ _ => -(1 : ℝ) / 2) 0 0 0 = _
    unfold HyperpriorDensity.cdf_logits_stage claim3Stage
    simp [softplusR_log_expm1_two]
    norm_num
  · have hz : HyperpriorDensity.stabilized_diff 1 (-1) = 0 := by
      show |sigmoid (-Real.sign ((1 : ℝ) + -1) * 1) -
        sigmoid (-Real.sign ((1 : ℝ) + -1) * (-1))| = 0
      norm_num [Real.sign_zero]
    have hp : 0 < sigmoid 1 - sigmoid (-1) := by
      have := sigmoid_lt_sigmoid (show (-1 : ℝ) < 1 by norm_num)
      linarith
    rw [hz]
    exact fun hEq => absurd hEq.symm (ne_of_gt hp)

/-- C3, amended: for `cdf_lower ≤ cdf_upper`, whenever
`cdf_upper + cdf_lower ≠ 0` (so that `sign` does not return `0`), the
stabilized combination equals the naive difference of sigmoids. -/
theorem claim3_amended_sign_trick (u l : ℝ) (h1 : l ≤ u) (h2 : u + l ≠ 0) :
    HyperpriorDensity.stabilized_diff u l = sigmoid u - sigmoid l := by
  have hm : sigmoid l ≤ sigmoid u := sigmoid_le_sigmoid h1
  show |sigmoid (-Real.sign (u + l) * u) - sigmoid (-Real.sign (u + l) * l)| = _
  rcases lt_or_gt_of_ne h2 with hneg | hpos
  · rw [Real.sign_of_neg hneg,
      show -(-1 : ℝ) * u = u by ring, show -(-1 : ℝ) * l = l by ring]
    exact abs_of_nonneg (by linarith)
  · rw [Real.sign_of_pos hpos,
      show -(1 : ℝ) * u = -u by ring, show -(1 : ℝ) * l = -l by ring,
      sigmoid_neg_arg, sigmoid_neg_arg,
      show (1 - sigmoid u) - (1 - sigmoid l) = -(sigmoid u - sigmoid l) by ring,
      abs_neg]
    exact abs_of_nonneg (by linarith)

/-- C3, witness: the amended equality applied at the concrete logit pair
`(1, 0)`. -/
theorem claim3_amended_sign_trick_witness :
    (0 : ℝ) ≤ 1 ∧ (1 : ℝ) + 0 ≠ 0 ∧
    HyperpriorDensity.stabilized_diff 1 0 = sigmoid 1 - sigmoid 0 :=
  ⟨by norm_num, by norm_num,
    claim3_amended_sign_trick 1 0 (by norm_num) (by norm_num)⟩

lemma MIN_LIKELIHOOD_pos : 0 < MIN_LIKELIHOOD := by
  norm_num [MIN_LIKELIHOOD]

/-- The mixture combine of the DLMM path: with every component pmf at least
`MIN_LIKELIHOOD` and a nonempty mixture, `exp(logsumexp(log_softmax + log pmf))`
is a convex combination of the pmfs, hence at least `MIN_LIKELIHOOD`. -/
lemma exp_logsumexp_mixture_ge (K : ℕ) (hK : 0 < K) (pis pmf : Fin K → ℝ)
    (hpmf : ∀ k, MIN_LIKELIHOOD ≤ pmf k) :
    MIN_LIKELIHOOD ≤
      Real.exp (logsumexp K fun k => log_softmax K pis k + Real.log (pmf k)) := by
  have huniv : (Finset.univ : Finset (Fin K)).Nonempty :=
    Finset.univ_nonempty_iff.2 ⟨⟨0, hK⟩⟩
  have hpmf_pos : ∀ k, 0 < pmf k := fun k => lt_of_lt_of_le MIN_LIKELIHOOD_pos (hpmf k)
  have hS : 0 < ∑ j : Fin K, Real.exp (pis j) :=
    Finset.sum_pos (fun j _ => Real.exp_pos _) huniv
  have hterm : ∀ k, Real.exp (log_softmax K pis k + Real.log (pmf k)) =
      Real.exp (pis k) / (∑ j : Fin K, Real.exp (pis j)) * pmf k := by
    intro k
    unfold log_softmax
    rw [Real.exp_add, Real.exp_sub, Real.exp_log hS, Real.exp_log (hpmf_pos k)]
  have hT : 0 < ∑ k : Fin K, Real.exp (log_softmax K pis k + Real.log (pmf k)) :=
    Finset.sum_pos (fun k _ => Real.exp_pos _) huniv
  unfold logsumexp
  rw [Real.exp_log hT]
  calc MIN_LIKELIHOOD
      = (∑ k : Fin K, Real.exp (pis k) / (∑ j : Fin K, Real.exp (pis j))) *
          MIN_LIKELIHOOD := by
        rw [← Finset.sum_div, div_self (ne_of_gt hS), one_mul]
    _ = ∑ k : Fin K, Real.exp (pis k) / (∑ j : Fin K, Real.exp (pis j)) *
          MIN_LIKELIHOOD := by
        rw [Finset.sum_mul]
    _ ≤ ∑ k : Fin K, Real.exp (pis k) / (∑ j : Fin K, Real.exp (pis j)) * pmf k := by
        refine Finset.sum_le_sum fun k _ => ?_
        exact mul_le_mul_of_nonneg_left (hpmf k) (by positivity)
    _ = ∑ k : Fin K, Real.exp (log_softmax K pis k + Real.log (pmf k)) := by
        refine Finset.sum_congr rfl fun k _ => ?_
        rw [hterm k]

/-- C4: every evaluated likelihood sits at or above `MIN_LIKELIHOOD = 1e-9`:
the factorized hyperlatent likelihood, the Gaussian/logistic latent
likelihood, each DLMM component pmf, and the DLMM mixture likelihood
`exp(log_DLMM)` (the mixture weights sum to 1). -/
theorem claim4_likelihood_floor :
    (∀ (stages : List DensityStage) (x : ℕ → ℕ → ℕ → ℝ) (c i l : ℕ),
        MIN_LIKELIHOOD ≤ HyperpriorDensity.likelihood MIN_LIKELIHOOD stages x c i l) ∧
    (∀ (Φ : ℝ → ℝ) (x mean scale : ℝ),
        MIN_LIKELIHOOD ≤ CodingModel.latent_likelihood Φ MIN_LIKELIHOOD x mean scale) ∧
    (∀ (Φ : ℝ → ℝ) (x mean log_scale : ℝ),
        MIN_LIKELIHOOD ≤ HyperpriorDLMM.pmf_mixture_component Φ x mean log_scale) ∧
    (∀ (K : ℕ) (Φ : ℝ → ℝ) (x : ℝ) (logit_pis means log_scales : Fin K → ℝ),
        0 < K →
        MIN_LIKELIHOOD ≤ Real.exp
          (HyperpriorDLMM.latent_log_likelihood_DLMM_elt Φ K x logit_pis means
            log_scales)) := by
  refine ⟨fun stages x c i l => le_max_right _ _,
    fun Φ x mean scale => le_max_right _ _,
    fun Φ x mean log_scale => le_max_right _ _,
    fun K Φ x logit_pis means log_scales hK => ?_⟩
  exact exp_logsumexp_mixture_ge K hK logit_pis
    (fun k => HyperpriorDLMM.pmf_mixture_component Φ x (means k) (log_scales k))
    (fun k => le_max_right _ _)

/-- C4, witness: the mixture part applied to a concrete one-component
mixture. -/
theorem claim4_likelihood_floor_witness :
    0 < 1 ∧
    MIN_LIKELIHOOD ≤ Real.exp
      (HyperpriorDLMM.latent_log_likelihood_DLMM_elt id 1 0 (fun _ => 0)
        (fun _ => 0) (fun _ => 0)) :=
  ⟨Nat.one_pos,
    claim4_likelihood_floor.2.2.2 1 id 0 (fun _ => 0) (fun _ => 0) (fun _ => 0)
      Nat.one_pos⟩

/-- C5, counterexample: the all-ones likelihood tensor (batch 1, one element,
`spatial_shape = (1, 1)`) satisfies the claim's hypotheses — every entry lies
in `[MIN_LIKELIHOOD, 1]` and the spatial shape is positive — yet
`_estimate_entropy` returns `bpp = log(1 + ε)/(-log 2) < 0`. -/
theorem claim5_counterexample :
    MIN_LIKELIHOOD ≤ (1 : ℝ) ∧ (1 : ℝ) ≤ 1 ∧
    (CodingModel.estimate_entropy 1 ((fun _ _ => 1) : Fin 1 → Fin 1 → ℝ)
      (1, 1)).2 < 0 := by
  refine ⟨by norm_num [MIN_LIKELIHOOD], le_refl _, ?_⟩
  have h1 : 0 < Real.log (1 + EPS) := Real.log_pos (by norm_num [EPS])
  have h2 : 0 < Real.log 2 := Real.log_pos one_lt_two
  unfold CodingModel.estimate_entropy
  show (∑ b : Fin 1, ∑ i : Fin 1, Real.log ((1 : ℝ) + EPS)) /
      (((1 : ℕ) : ℝ) * -Real.log 2) / (((1 * 1 : ℕ) : ℝ)) < 0
  rw [show (((1 * 1 : ℕ) : ℝ)) = 1 by norm_num, div_one,
    Fin.sum_univ_one, Fin.sum_univ_one]
  apply div_neg_of_pos_of_neg h1
  linarith

/-- C5, amended: if every likelihood entry lies in
`[MIN_LIKELIHOOD, 1 - EPS]` (so that adding the `ε` guard cannot push the
argument of the logarithm above 1), the estimated bpp is non-negative. -/
theorem claim5_amended_bpp_nonneg (B : ℕ) {ι : Type} [Fintype ι]
    (likelihood : Fin B → ι → ℝ) (spatial_shape : ℕ × ℕ)
    (hL : ∀ b i, MIN_LIKELIHOOD ≤ likelihood b i ∧ likelihood b i ≤ 1 - EPS) :
    0 ≤ (CodingModel.estimate_entropy B likelihood spatial_shape).2 := by
  have hlog : ∀ (b : Fin B) (i : ι), Real.log (likelihood b i + EPS) ≤ 0 := by
    intro b i
    apply Real.log_nonpos
    · have h := (hL b i).1
      have := MIN_LIKELIHOOD_pos
      have hEPS : (0 : ℝ) ≤ EPS := by norm_num [EPS]
      linarith
    · have h := (hL b i).2
      linarith
  have hsum : (∑ b : Fin B, ∑ i : ι, Real.log (likelihood b i + EPS)) ≤ 0 :=
    Finset.sum_nonpos fun b _ => Finset.sum_nonpos fun i _ => hlog b i
  have hden : ((B : ℝ)) * -Real.log 2 ≤ 0 := by
    have h2 : 0 < Real.log 2 := Real.log_pos one_lt_two
    have hB : (0 : ℝ) ≤ (B : ℝ) := Nat.cast_nonneg B
    nlinarith
  have hbits : 0 ≤ (∑ b : Fin B, ∑ i : ι, Real.log (likelihood b i + EPS)) /
      (((B : ℕ) : ℝ) * -Real.log 2) :=
    div_nonneg_of_nonpos hsum hden
  unfold CodingModel.estimate_entropy
  exact div_nonneg hbits (by positivity)

/-- C5, witness: the amended bound at a concrete constant-`1/2` likelihood
tensor. -/
theorem claim5_amended_bpp_nonneg_witness :
    (∀ (b i : Fin 1), MIN_LIKELIHOOD ≤ ((fun _ _ => 1 / 2) : Fin 1 → Fin 1 → ℝ) b i ∧
        ((fun _ _ => 1 / 2) : Fin 1 → Fin 1 → ℝ) b i ≤ 1 - EPS) ∧
    0 ≤ (CodingModel.estimate_entropy 1 ((fun _ _ => 1 / 2) : Fin 1 → Fin 1 → ℝ)
      (1, 1)).2 := by
  have h : ∀ (b i : Fin 1), MIN_LIKELIHOOD ≤ ((fun _ _ => 1 / 2) : Fin 1 → Fin 1 → ℝ) b i ∧
      ((fun _ _ => 1 / 2) : Fin 1 → Fin 1 → ℝ) b i ≤ 1 - EPS :=
    fun b i => ⟨by norm_num [MIN_LIKELIHOOD], by norm_num [EPS]⟩
  exact ⟨h, claim5_amended_bpp_nonneg 1 _ (1, 1) h⟩

/-- C6: the Gaussian/logistic orchestrator returns the mean-centered
straight-through quantization in both training and inference mode, while the
DLMM orchestrator returns straight-through (no mean) when training and hard
quantization otherwise. -/
theorem claim6_decoded_selection {B : ℕ} {ι κ : Type} [Fintype ι] [Fintype κ]
    (M : HyperpriorModel B ι κ) {K : ℕ} (MD : HyperpriorDLMMModel B ι κ K)
    (latents : Tensor B ι) (spatial_shape : ℕ × ℕ)
    (noise_h : Tensor B κ) (noise_l : Tensor B ι) :
    (Hyperprior.forward M latents spatial_shape noise_h noise_l).decoded =
      (fun b i => CodingModel.quantize_latents_st (latents b i)
        (some (Hyperprior.latent_means M latents noise_h b i))) ∧
    (HyperpriorDLMM.forward MD latents spatial_shape noise_h noise_l).decoded =
      (if MD.training then
        fun b i => CodingModel.quantize_latents_st (latents b i) none
      else
        fun b i => CodingModel.quantize_mode_quantize (latents b i) none) :=
  ⟨rfl, rfl⟩

/-- C7: every `HyperInfo` returned by either orchestrator has
`total_nbpp = latent_nbpp + hyperlatent_nbpp`,
`total_qbpp = latent_qbpp + hyperlatent_qbpp`, and unset bitstring fields. -/
theorem claim7_hyperinfo_contract {B : ℕ} {ι κ : Type} [Fintype ι] [Fintype κ]
    (M : HyperpriorModel B ι κ) {K : ℕ} (MD : HyperpriorDLMMModel B ι κ K)
    (latents : Tensor B ι) (spatial_shape : ℕ × ℕ)
    (noise_h : Tensor B κ) (noise_l : Tensor B ι) :
    ((Hyperprior.forward M latents spatial_shape noise_h noise_l).total_nbpp =
        (Hyperprior.forward M latents spatial_shape noise_h noise_l).latent_nbpp +
          (Hyperprior.forward M latents spatial_shape noise_h noise_l).hyperlatent_nbpp ∧
      (Hyperprior.forward M latents spatial_shape noise_h noise_l).total_qbpp =
        (Hyperprior.forward M latents spatial_shape noise_h noise_l).latent_qbpp +
          (Hyperprior.forward M latents spatial_shape noise_h noise_l).hyperlatent_qbpp ∧
      (Hyperprior.forward M latents spatial_shape noise_h noise_l).bitstring = none ∧
      (Hyperprior.forward M latents spatial_shape noise_h noise_l).side_bitstring = none) ∧
    ((HyperpriorDLMM.forward MD latents spatial_shape noise_h noise_l).total_nbpp =
        (HyperpriorDLMM.forward MD latents spatial_shape noise_h noise_l).latent_nbpp +
          (HyperpriorDLMM.forward MD latents spatial_shape noise_h noise_l).hyperlatent_nbpp ∧
      (HyperpriorDLMM.forward MD latents spatial_shape noise_h noise_l).total_qbpp =
        (HyperpriorDLMM.forward MD latents spatial_shape noise_h noise_l).latent_qbpp +
          (HyperpriorDLMM.forward MD latents spatial_shape noise_h noise_l).hyperlatent_qbpp ∧
      (HyperpriorDLMM.forward MD latents spatial_shape noise_h noise_l).bitstring = none ∧
      (HyperpriorDLMM.forward MD latents spatial_shape noise_h noise_l).side_bitstring = none) :=
  ⟨⟨rfl, rfl, rfl, rfl⟩, ⟨rfl, rfl, rfl, rfl⟩⟩

/-! Value projection of the autodiff density evaluation. -/

lemma DensityStageD_detach_val (s : DensityStageD) : s.detach.val = s.val :=
  rfl

lemma cdf_logits_stage_D_val (inDim : ℕ) (s : DensityStageD) (v : ℕ → ℕ → ℕ → D)
    (c i l : ℕ) :
    (HyperpriorDensity.cdf_logits_stage_D inDim s v c i l).val =
      HyperpriorDensity.cdf_logits_stage inDim s.val (fun c j l => (v c j l).val) c i l :=
  rfl

/-- The value component of the autodiff evaluation of `cdf_logits` agrees with
the plain real evaluation on the parameter values, for either setting of
`update_parameters`. -/
lemma cdf_logits_D_val (stages : List DensityStageD) (flag : Bool) (inDim : ℕ)
    (x : ℕ → ℕ → ℕ → D) (c i l : ℕ) :
    (HyperpriorDensity.cdf_logits_D stages flag inDim x c i l).val =
      HyperpriorDensity.cdf_logits (stages.map DensityStageD.val) inDim
        (fun c j l => (x c j l).val) c i l := by
  induction stages generalizing inDim x with
  | nil => rfl
  | cons s rest ih =>
      cases flag with
      | false =>
          show (HyperpriorDensity.cdf_logits_D rest false s.detach.outDim
            (HyperpriorDensity.cdf_logits_stage_D inDim s.detach x) c i l).val = _
          rw [ih]
          have hfun : (fun c j l =>
              (HyperpriorDensity.cdf_logits_stage_D inDim s.detach x c j l).val) =
              HyperpriorDensity.cdf_logits_stage inDim s.val
                (fun c j l => (x c j l).val) := by
            funext c j l
            rw [cdf_logits_stage_D_val, DensityStageD_detach_val]
          rw [hfun]
          rfl
      | true =>
          show (HyperpriorDensity.cdf_logits_D rest true s.outDim
            (HyperpriorDensity.cdf_logits_stage_D inDim s x) c i l).val = _
          rw [ih]
          have hfun : (fun c j l =>
              (HyperpriorDensity.cdf_logits_stage_D inDim s x c j l).val) =
              HyperpriorDensity.cdf_logits_stage inDim s.val
                (fun c j l => (x c j l).val) := by
            funext c j l
            rw [cdf_logits_stage_D_val]
          rw [hfun]
          rfl

/-- C10: evaluating `cdf_logits` with `update_parameters = False` detaches
the per-stage parameters but returns exactly the same forward value as
`update_parameters = True`. -/
theorem claim10_update_parameters_value (stages : List DensityStageD) (inDim : ℕ)
    (x : ℕ → ℕ → ℕ → D) (c i l : ℕ) :
    (HyperpriorDensity.cdf_logits_D stages false inDim x c i l).val =
      (HyperpriorDensity.cdf_logits_D stages true inDim x c i l).val := by
  rw [cdf_logits_D_val, cdf_logits_D_val]

/-- C2, counterexample: at `x = -0.5` the source's rule `floor(x + 0.5)`
returns `0`, while "round to nearest with ties away from zero" returns `-1`;
the two rules the claim identifies disagree. -/
theorem claim2_counterexample :
    CodingModel.quantize_mode_quantize (-(1 / 2) : ℝ) none ≠
      CodingModel.round_ties_away (-(1 / 2) : ℝ) := by
  have h1 : CodingModel.quantize_mode_quantize (-(1 / 2) : ℝ) none = 0 := by
    unfold CodingModel.quantize_mode_quantize
    norm_num
  have h2 : CodingModel.round_ties_away (-(1 / 2) : ℝ) = -1 := by
    unfold CodingModel.round_ties_away
    rw [if_neg (by norm_num)]
    have hc : ⌈(-(1 / 2) : ℝ) - 1 / 2⌉ = (-1 : ℤ) := by
      rw [Int.ceil_eq_iff] <;> norm_num
    rw [hc]
    norm_num
  rw [h1, h2]
  norm_num

/-- C2, amended: `_quantize(x, mode='quantize')` computes `floor(x + 0.5)`,
the nearest integer to `x` with ties broken toward `+∞` (the unique integer in
`(x - 1/2, x + 1/2]`); a supplied mean is subtracted before the rounding and
re-added afterwards. -/
theorem claim2_amended_round_half_up (x m : ℝ) :
    CodingModel.quantize_mode_quantize x none = ((Int.floor (x + 1 / 2) : ℤ) : ℝ) ∧
    x - 1 / 2 < CodingModel.quantize_mode_quantize x none ∧
    CodingModel.quantize_mode_quantize x none ≤ x + 1 / 2 ∧
    CodingModel.quantize_mode_quantize x (some m) =
      CodingModel.quantize_mode_quantize (x - m) none + m := by
  refine ⟨rfl, ?_, ?_, rfl⟩
  · have h := Int.lt_floor_add_one (x + 1 / 2)
    unfold CodingModel.quantize_mode_quantize
    push_cast
    linarith
  · have h := Int.floor_le (x + 1 / 2)
    unfold CodingModel.quantize_mode_quantize
    exact h

/-- C8: the forward value of straight-through quantization equals hard
quantization (with and without a mean), and on autodiff scalars the
straight-through version carries the identity gradient while hard rounding
carries zero gradient. -/
theorem claim8_straight_through_value :
    (∀ (x : ℝ) (means : Option ℝ),
        CodingModel.quantize_latents_st x means =
          CodingModel.quantize_mode_quantize x means) ∧
    (∀ x : D, (quantize_latents_st_D x).val = (quantize_hard_D x).val ∧
        (quantize_latents_st_D x).grad = x.grad ∧ (quantize_hard_D x).grad = 0) := by
  constructor
  · intro x means
    cases means with
    | none =>
        unfold CodingModel.quantize_latents_st CodingModel.quantize_mode_quantize
        ring
    | some m =>
        unfold CodingModel.quantize_latents_st CodingModel.quantize_mode_quantize
        ring
  · intro x
    refine ⟨?_, ?_, rfl⟩
    · show x.val + (((Int.floor (x.val + 1 / 2) : ℤ) : ℝ) - x.val) =
        ((Int.floor (x.val + 1 / 2) : ℤ) : ℝ)
      ring
    · show x.grad + 0 = x.grad
      ring

/-- C9: an unrecognized `likelihood_type` makes construction of either
orchestrator fail; a DLMM bottleneck capacity above 128 makes `HyperpriorDLMM`
construction fail; a recognized type (with capacity at most 128 for the DLMM)
raises neither error. -/
theorem claim9_constructor_errors (lt : String) (cap : ℕ) :
    (lt ≠ "gaussian" → lt ≠ "logistic" →
      (∃ m, Hyperprior.init cap lt = Except.error m) ∧
      (∃ m, HyperpriorDLMM.init cap lt = Except.error m)) ∧
    (128 < cap → ∃ m, HyperpriorDLMM.init cap lt = Except.error m) ∧
    ((lt = "gaussian" ∨ lt = "logistic") →
      Hyperprior.init cap lt = Except.ok () ∧
      (cap ≤ 128 → HyperpriorDLMM.init cap lt = Except.ok ())) := by
  refine ⟨?_, ?_, ?_⟩
  · intro h1 h2
    constructor
    · exact ⟨("Unknown likelihood model: " ++ lt), by simp [Hyperprior.init, h1, h2]⟩
    · by_cases hc : cap ≤ 128
      · exact ⟨("Unknown likelihood model: " ++ lt),
          by simp [HyperpriorDLMM.init, h1, h2, hc]⟩
      · exact ⟨("Will probably run out of memory!"), by simp [HyperpriorDLMM.init, hc]⟩
  · intro h
    exact ⟨("Will probably run out of memory!"),
      by simp [HyperpriorDLMM.init, Nat.not_le.2 h]⟩
  · intro h
    rcases h with h | h <;> subst h <;>
      exact ⟨by simp [Hyperprior.init], fun hc => by simp [HyperpriorDLMM.init, hc]⟩

/-- C9, witness: concrete constructions exercising every hypothesis of
`claim9_constructor_errors`. -/
theorem claim9_constructor_errors_witness :
    ((∃ m, Hyperprior.init 64 "poisson" = Except.error m) ∧
      (∃ m, HyperpriorDLMM.init 64 "poisson" = Except.error m)) ∧
    (∃ m, HyperpriorDLMM.init 200 "gaussian" = Except.error m) ∧
    (Hyperprior.init 64 "gaussian" = Except.ok () ∧
      HyperpriorDLMM.init 64 "gaussian" = Except.ok ()) := by
  refine ⟨(claim9_constructor_errors "poisson" 64).1 (by decide) (by decide),
    (claim9_constructor_errors "gaussian" 200).2.1 (by decide), ?_⟩
  have h := (claim9_constructor_errors "gaussian" 64).2.2 (Or.inl rfl)
  exact ⟨h.1, h.2 (by decide)⟩

end

end HiFiC
